import Mathlib

/-!
Verification of the cron-expression engine of Prod-app (src/main.go).

The development embeds the Go source shallowly:
  - `generateDescription` and its per-field clause helpers follow
    src/main.go lines 435-692 statement by statement;
  - the occurrence calculator (`calculateNextExecutions`, src/main.go
    lines 694-711) delegates schedule parsing and matching to the
    robfig/cron library, which is not part of this repository; the
    schedule data model and the matching/stepping semantics are
    therefore modelled from the specification (spec sections 3, 4.1,
    4.3, 6) and clearly marked as such;
  - machine integers are Nat; Go string helpers (strings.Fields,
    strings.Split, strings.Contains, strings.Join, fmt.Sscanf) are
    embedded as structurally recursive functions over the character
    list of a string so that every definition evaluates inside the
    kernel.
-/

/-! ## Go string primitives -/

/-- Splits a character list at every character satisfying the predicate,
keeping empty runs, as Go strings.Split does for a one-character
separator. -/
def splitOnChar (p : Char → Bool) : List Char → List (List Char)
  | [] => [[]]
  | c :: cs =>
    let r := splitOnChar p cs
    if p c then [] :: r
    else
      match r with
      | [] => [[c]]
      | x :: xs => (c :: x) :: xs

/-- Embedding of Go strings.Split with a one-character separator. -/
def goSplit (s : String) (p : Char → Bool) : List String :=
  (splitOnChar p s.data).map (fun l => String.mk l)

/-- Embedding of Go strings.Fields: split on whitespace and drop empty
tokens. -/
def goFields (s : String) : List String :=
  (goSplit s Char.isWhitespace).filter (fun t => t != "")

/-- Embedding of Go strings.Contains for a one-character substring. -/
def containsChar (s : String) (c : Char) : Bool :=
  s.data.contains c

/-- Embedding of Go strings.Join(xs, ", "). -/
def joinComma : List String → String
  | [] => ""
  | [x] => x
  | x :: xs => x ++ ", " ++ joinComma xs

/-- Models Go fmt.Sscanf(s, "%d", new(int)) as used in
src/main.go: it returns the pair of the item count (1 when a decimal
integer could be scanned, 0 otherwise) and whether err == nil.  The
scanned value itself is written through the freshly allocated pointer
and discarded by the caller, so it does not appear in the result. -/
def sscanfD (s : String) : Nat × Bool :=
  let l :=
    match s.data with
    | c :: rest => if c = '-' ∨ c = '+' then rest else c :: rest
    | [] => []
  match l with
  | c :: _ => if c.isDigit then (1, true) else (0, false)
  | [] => (0, false)

/-! ## Description generator (src/main.go lines 435-692) -/

/-- Minute clause of generateDescription (src/main.go lines 449-479). -/
def minuteDescOf (minute : String) : String :=
  if minute = "*" then "every minute"
  else if minute = "*/1" then "every minute"
  else if minute = "0" then "at the start of each hour"
  else if minute = "*/5" then "every 5 minutes"
  else if minute = "*/10" then "every 10 minutes"
  else if minute = "*/15" then "every 15 minutes"
  else if minute = "*/30" then "every 30 minutes"
  else if containsChar minute ',' then "at minutes " ++ minute
  else if containsChar minute '-' then "every minute from " ++ minute
  else if containsChar minute '/' then
    let ps := goSplit minute (fun c => c = '/')
    if ps.length = 2 then "every " ++ ps.getD 1 "" ++ " minute(s)" else ""
  else "at minute " ++ minute

/-- Hour clause of generateDescription (src/main.go lines 481-505). -/
def hourDescOf (hour : String) : String :=
  if hour = "*" then "every hour"
  else if hour = "*/1" then "every hour"
  else if hour = "0" then "at midnight"
  else if hour = "12" then "at noon"
  else if containsChar hour ',' then "at hours " ++ hour
  else if containsChar hour '-' then "every hour from " ++ hour
  else if containsChar hour '/' then
    let ps := goSplit hour (fun c => c = '/')
    if ps.length = 2 then "every " ++ ps.getD 1 "" ++ " hour(s)" else ""
  else "at " ++ hour ++ ":00"

/-- Ordinal suffix chosen by the generic day-of-month branch
(src/main.go lines 530-538): "th" unless the token is one of the
listed literals. -/
def ordinalSuffix (d : String) : String :=
  if d = "1" ∨ d = "21" ∨ d = "31" then "st"
  else if d = "2" ∨ d = "22" then "nd"
  else if d = "3" ∨ d = "23" then "rd"
  else "th"

/-- Day-of-month clause of generateDescription (src/main.go lines
507-541). -/
def domDescOf (dayOfMonth : String) : String :=
  if dayOfMonth = "*" then "every day of the month"
  else if dayOfMonth = "1" then "on the 1st of the month"
  else if dayOfMonth = "2" then "on the 2nd of the month"
  else if dayOfMonth = "3" then "on the 3rd of the month"
  else if dayOfMonth = "L" then "on the last day of the month"
  else if containsChar dayOfMonth ',' then "on days " ++ dayOfMonth ++ " of the month"
  else if containsChar dayOfMonth '-' then "on days " ++ dayOfMonth ++ " of the month"
  else if containsChar dayOfMonth '/' then
    let ps := goSplit dayOfMonth (fun c => c = '/')
    if ps.length = 2 then "every " ++ ps.getD 1 "" ++ " day(s) of the month" else ""
  else "on the " ++ dayOfMonth ++ ordinalSuffix dayOfMonth ++ " of the month"

/-- Month name table of src/main.go line 545 (index 0 is a padding
entry). -/
def monthNames : List String :=
  ["", "January", "February", "March", "April", "May", "June", "July",
   "August", "September", "October", "November", "December"]

/-- Resolution of one month token by the list and range branches of the
month clause (src/main.go lines 553-558 and 565-574): the Go code
indexes monthNames with the item count i returned by Sscanf, not with
the scanned value. -/
def monthMemberName (m : String) : String :=
  let r := sscanfD m
  if r.2 ∧ r.1 > 0 ∧ r.1 ≤ 12 then monthNames.getD r.1 "" else m

/-- Month clause of generateDescription (src/main.go lines 543-582). -/
def monthDescOf (month : String) : String :=
  if month = "*" then "every month"
  else if containsChar month ',' then
    "in " ++ joinComma ((goSplit month (fun c => c = ',')).map monthMemberName)
  else if containsChar month '-' then
    let ps := goSplit month (fun c => c = '-')
    if ps.length = 2 then
      "from " ++ monthMemberName (ps.getD 0 "") ++ " to " ++ monthMemberName (ps.getD 1 "")
    else ""
  else
    let r := sscanfD month
    if r.2 ∧ r.1 > 0 ∧ r.1 ≤ 12 then "in " ++ monthNames.getD r.1 ""
    else "in month " ++ month

/-- Weekday name table of src/main.go line 586. -/
def dowNames : List String :=
  ["Sunday", "Monday", "Tuesday", "Wednesday", "Thursday", "Friday",
   "Saturday", "Sunday"]

/-- Resolution of one day-of-week token by the list and range branches
of the day-of-week clause (src/main.go lines 612-622 and 628-645): as
in the month clause, the index is the Sscanf item count, so the
alias branch idx = 7 is never taken. -/
def dowMemberName (d : String) : String :=
  let r := sscanfD d
  if r.2 ∧ r.1 ≥ 0 ∧ r.1 ≤ 7 then
    let idx := if r.1 = 7 then 0 else r.1
    dowNames.getD idx ""
  else d

/-- Day-of-week clause of generateDescription (src/main.go lines
584-651). -/
def dowDescOf (dayOfWeek : String) : String :=
  if dayOfWeek = "*" then "on every day of the week"
  else if dayOfWeek = "0" ∨ dayOfWeek = "7" then "on Sundays"
  else if dayOfWeek = "1" then "on Mondays"
  else if dayOfWeek = "2" then "on Tuesdays"
  else if dayOfWeek = "3" then "on Wednesdays"
  else if dayOfWeek = "4" then "on Thursdays"
  else if dayOfWeek = "5" then "on Fridays"
  else if dayOfWeek = "6" then "on Saturdays"
  else if dayOfWeek = "1-5" then "on weekdays"
  else if dayOfWeek = "0,6" ∨ dayOfWeek = "6,0" ∨ dayOfWeek = "6,7" then "on weekends"
  else if containsChar dayOfWeek ',' then
    "on " ++ joinComma ((goSplit dayOfWeek (fun c => c = ',')).map dowMemberName)
  else if containsChar dayOfWeek '-' then
    let ps := goSplit dayOfWeek (fun c => c = '-')
    if ps.length = 2 then
      "from " ++ dowMemberName (ps.getD 0 "") ++ " to " ++ dowMemberName (ps.getD 1 "")
    else ""
  else "on day " ++ dayOfWeek ++ " of the week"

/-- Sentence composition of generateDescription for expressions not
caught by a whole-expression override (src/main.go lines 666-691). -/
def composeDescription (minute hour dayOfMonth month dayOfWeek : String) : String :=
  (if minute = "*" ∧ hour = "*" then
    "This cron expression will run " ++ minuteDescOf minute ++ " " ++ hourDescOf hour
  else if minute = "*" then
    "This cron expression will run " ++ "every minute " ++ hourDescOf hour
  else if hour = "*" then
    "This cron expression will run " ++ minuteDescOf minute ++ " of every hour"
  else
    "This cron expression will run " ++ minuteDescOf minute ++ " " ++ hourDescOf hour)
  ++ (if dayOfMonth ≠ "*" then " " ++ domDescOf dayOfMonth else "")
  ++ (if month ≠ "*" then " " ++ monthDescOf month else "")
  ++ (if dayOfWeek ≠ "*" then " " ++ dowDescOf dayOfWeek else "")
  ++ "."

/-- Embedding of generateDescription (src/main.go lines 435-692). -/
def generateDescription (expression : String) : String :=
  let parts := goFields expression
  if parts.length = 5 then
    let minute := parts.getD 0 ""
    let hour := parts.getD 1 ""
    let dayOfMonth := parts.getD 2 ""
    let month := parts.getD 3 ""
    let dayOfWeek := parts.getD 4 ""
    if minute = "0" ∧ hour = "0" ∧ dayOfMonth = "*" ∧ month = "*" ∧ dayOfWeek = "*" then
      "This cron expression will run once per day at midnight."
    else if minute = "0" ∧ hour = "0" ∧ dayOfMonth = "*" ∧ month = "*" ∧ dayOfWeek = "0" then
      "This cron expression will run at midnight on Sundays."
    else if minute = "0" ∧ hour = "*" ∧ dayOfMonth = "*" ∧ month = "*" ∧ dayOfWeek = "*" then
      "This cron expression will run at the start of every hour."
    else
      composeDescription minute hour dayOfMonth month dayOfWeek
  else
    "Invalid cron expression"

/-! ## Field parser and validator

Modelled from the spec: the source (src/main.go) delegates parsing and
validation to the robfig/cron library, which is not part of this
repository; the definitions below follow spec sections 3, 4.1 and 6
(CronField variants, per-field domains, day-of-week alias
normalization, error taxonomy and error object shape). -/

/-- Machine-readable validation reason codes (spec section 6). -/
inductive ReasonCode where
  | MalformedExpression
  | InvalidStep
  | InvalidListMember
  | InvalidRange
  | OutOfDomain
deriving DecidableEq

/-- Validation failure object: reason code, offending field index
(unset for a wrong field count), offending raw token (spec sections
4.1 and 6). -/
structure ValidationError where
  code : ReasonCode
  fieldIndex : Option Nat
  token : String
deriving DecidableEq

/-- Tagged field variant (spec section 3): a step base is either
wildcard-rooted (none) or range-rooted (some (lo, hi)). -/
inductive CronField where
  | wildcard
  | single (n : Nat)
  | list (ns : List Nat)
  | range (lo hi : Nat)
  | step (base : Option (Nat × Nat)) (interval : Nat)
deriving DecidableEq

/-- Inclusive domain bounds per field position (spec section 3):
minute 0-59, hour 0-23, day-of-month 1-31, month 1-12,
day-of-week 0-7. -/
def domainOf (idx : Nat) : Nat × Nat :=
  match idx with
  | 0 => (0, 59)
  | 1 => (0, 23)
  | 2 => (1, 31)
  | 3 => (1, 12)
  | _ => (0, 7)

/-- Day-of-week alias normalization (spec section 4.1): 7 becomes 0
wherever a bare integer is parsed in field position 4. -/
def normDow (idx n : Nat) : Nat :=
  if idx = 4 ∧ n = 7 then 0 else n

/-- Domain membership test for a field position. -/
def inDomain (idx n : Nat) : Bool :=
  (domainOf idx).1 ≤ n && n ≤ (domainOf idx).2

/-- Parses a decimal integer token (all characters digits, nonempty). -/
def digitsToNat : List Char → Nat → Nat
  | [], acc => acc
  | c :: cs, acc => digitsToNat cs (acc * 10 + (c.toNat - 48))

/-- Decimal integer parsing for validator tokens. -/
def parseNatTok (s : String) : Option Nat :=
  match s.data with
  | [] => none
  | l => if l.all Char.isDigit then some (digitsToNat l 0) else none

/-- Parses a raw range token lo-hi into its normalized integer bounds;
none when the token is not two dash-separated integers. -/
def parseRangePair (idx : Nat) (s : String) : Option (Nat × Nat) :=
  let ps := goSplit s (fun c => c = '-')
  if ps.length = 2 then
    match parseNatTok (ps.getD 0 ""), parseNatTok (ps.getD 1 "") with
    | some a, some b => some (normDow idx a, normDow idx b)
    | _, _ => none
  else none

/-- Parses one list member: a bare integer or a nested range, each
normalized and domain-checked (spec section 4.1). -/
def parseMember (idx : Nat) (s : String) : Option (List Nat) :=
  if containsChar s '-' then
    match parseRangePair idx s with
    | some (a, b) =>
      if a ≤ b ∧ inDomain idx a = true ∧ inDomain idx b = true then
        some ((List.range (b + 1 - a)).map (fun k => k + a))
      else none
    | none => none
  else
    match parseNatTok s with
    | some n =>
      let m := normDow idx n
      if inDomain idx m = true then some [m] else none
    | none => none

/-- Parses every member of a comma list, failing when any member
fails. -/
def parseMembers (idx : Nat) : List String → Option (List Nat)
  | [] => some []
  | s :: rest =>
    match parseMember idx s, parseMembers idx rest with
    | some a, some b => some (a ++ b)
    | _, _ => none

/-- Classifies one raw token for field position idx (spec section 4.1),
returning the reason code on failure. -/
def classifyField (idx : Nat) (tok : String) : Except ReasonCode CronField :=
  if tok = "*" then Except.ok CronField.wildcard
  else if containsChar tok '/' then
    let ps := goSplit tok (fun c => c = '/')
    if ps.length = 2 then
      match parseNatTok (ps.getD 1 "") with
      | some n =>
        if n = 0 then Except.error ReasonCode.InvalidStep
        else
          let base := ps.getD 0 ""
          if base = "*" then Except.ok (CronField.step none n)
          else
            match parseRangePair idx base with
            | some (a, b) =>
              if a ≤ b ∧ inDomain idx a = true ∧ inDomain idx b = true then
                Except.ok (CronField.step (some (a, b)) n)
              else Except.error ReasonCode.InvalidStep
            | none => Except.error ReasonCode.InvalidStep
      | none => Except.error ReasonCode.InvalidStep
    else Except.error ReasonCode.InvalidStep
  else if containsChar tok ',' then
    match parseMembers idx (goSplit tok (fun c => c = ',')) with
    | some ns => Except.ok (CronField.list ns)
    | none => Except.error ReasonCode.InvalidListMember
  else if containsChar tok '-' then
    match parseRangePair idx tok with
    | some (a, b) =>
      if a ≤ b ∧ inDomain idx a = true ∧ inDomain idx b = true then
        Except.ok (CronField.range a b)
      else Except.error ReasonCode.InvalidRange
    | none => Except.error ReasonCode.InvalidRange
  else
    match parseNatTok tok with
    | some n =>
      let m := normDow idx n
      if inDomain idx m = true then Except.ok (CronField.single m)
      else Except.error ReasonCode.OutOfDomain
    | none => Except.error ReasonCode.OutOfDomain

/-- Validates one token at a field position, attaching the field index
and the offending raw token to any failure. -/
def parseField (idx : Nat) (tok : String) : Except ValidationError CronField :=
  match classifyField idx tok with
  | Except.ok f => Except.ok f
  | Except.error c => Except.error ⟨c, some idx, tok⟩

/-- Structured schedule (spec section 3): five validated fields in
fixed order plus the original raw text. -/
structure ParsedSchedule where
  minute : CronField
  hour : CronField
  dom : CronField
  month : CronField
  dow : CronField
  raw : String
deriving DecidableEq

/-- Validates a whole expression (spec section 4.1): exactly five
whitespace-separated tokens, each validated against its own field
domain; no partial schedule is ever returned. -/
def parseSchedule (expr : String) : Except ValidationError ParsedSchedule :=
  let parts := goFields expr
  if parts.length = 5 then
    match parseField 0 (parts.getD 0 "") with
    | Except.error e => Except.error e
    | Except.ok f0 =>
      match parseField 1 (parts.getD 1 "") with
      | Except.error e => Except.error e
      | Except.ok f1 =>
        match parseField 2 (parts.getD 2 "") with
        | Except.error e => Except.error e
        | Except.ok f2 =>
          match parseField 3 (parts.getD 3 "") with
          | Except.error e => Except.error e
          | Except.ok f3 =>
            match parseField 4 (parts.getD 4 "") with
            | Except.error e => Except.error e
            | Except.ok f4 => Except.ok ⟨f0, f1, f2, f3, f4, expr⟩
  else Except.error ⟨ReasonCode.MalformedExpression, none, expr⟩

/-- Field-index sanity of a validation outcome: any error that names a
field names one of the five positions 0-4. -/
def fieldIndexOk {α : Type} (r : Except ValidationError α) : Bool :=
  match r with
  | Except.error err =>
    match err.fieldIndex with
    | some i => decide (i ≤ 4)
    | none => true
  | Except.ok _ => true

/-! ## Occurrence calculator

Modelled from the spec: the source (src/main.go lines 694-711) obtains
schedule matching and the next-occurrence step from the robfig/cron
library, which is not part of this repository.  The definitions below
follow spec section 4.3: a candidate instant advances from the
reference instant, only instants with seconds zero are tested, the
minute, hour and month components must match their fields, day
selection uses the dual-field OR-rule, and the search carries an
explicit ceiling (recommended at least four years of minutes; five
366-day years are used here).  Instants are seconds since the civil
epoch 1970-01-01 00:00:00. -/

/-- Modelled from the spec: civil calendar conversion (days since
1970-01-01 to year, month, day) using the standard era-based
algorithm; the spec's calendar arithmetic is otherwise hidden inside
the borrowed scheduling library. -/
def civilFromDays (z : Nat) : Nat × Nat × Nat :=
  let z' := z + 719468
  let era := z' / 146097
  let doe := z' % 146097
  let yoe := (doe - doe / 1460 + doe / 36524 - doe / 146096) / 365
  let y := yoe + era * 400
  let doy := doe - (365 * yoe + yoe / 4 - yoe / 100)
  let mp := (5 * doy + 2) / 153
  let d := doy - (153 * mp + 2) / 5 + 1
  let m := if mp < 10 then mp + 3 else mp - 9
  let y' := if m ≤ 2 then y + 1 else y
  (y', m, d)

/-- Calendar month (1-12) of an instant in seconds. -/
def monthAt (s : Nat) : Nat := (civilFromDays (s / 86400)).2.1

/-- Calendar day of month (1-31) of an instant in seconds. -/
def dayOfMonthAt (s : Nat) : Nat := (civilFromDays (s / 86400)).2.2

/-- Weekday (0 = Sunday) of an instant in seconds; 1970-01-01 was a
Thursday. -/
def weekdayAt (s : Nat) : Nat := (s / 86400 + 4) % 7

/-- Membership test of a calendar component value in one CronField
(spec section 4.3): wildcard always matches; single, list, range and
step use ordinary interval and modular arithmetic.  The lo argument is
the field domain's lower bound, the origin of wildcard-rooted steps. -/
def fieldMatchesIn (lo : Nat) (f : CronField) (v : Nat) : Bool :=
  match f with
  | CronField.wildcard => true
  | CronField.single n => v == n
  | CronField.list ns => ns.contains v
  | CronField.range a b => decide (a ≤ v) && decide (v ≤ b)
  | CronField.step none n => (v - lo) % n == 0
  | CronField.step (some (a, b)) n =>
    decide (a ≤ v) && decide (v ≤ b) && ((v - a) % n == 0)

/-- Dual-field day selection (spec section 4.3): both wildcard - every
day matches; exactly one restricted - that field governs; both
restricted - day-of-month OR day-of-week. -/
def dayMatches (sch : ParsedSchedule) (d w : Nat) : Bool :=
  if sch.dom = CronField.wildcard ∧ sch.dow = CronField.wildcard then true
  else if sch.dom = CronField.wildcard then fieldMatchesIn 0 sch.dow w
  else if sch.dow = CronField.wildcard then fieldMatchesIn 1 sch.dom d
  else fieldMatchesIn 1 sch.dom d || fieldMatchesIn 0 sch.dow w

/-- An instant fires a schedule when its seconds are zero and its
minute, hour, month and day components match (spec section 4.3). -/
def matchesAt (sch : ParsedSchedule) (s : Nat) : Bool :=
  decide (s % 60 = 0) &&
  fieldMatchesIn 0 sch.minute (s / 60 % 60) &&
  fieldMatchesIn 0 sch.hour (s / 3600 % 24) &&
  fieldMatchesIn 1 sch.month (monthAt s) &&
  dayMatches sch (dayOfMonthAt s) (weekdayAt s)

/-- Search ceiling of the occurrence search (spec section 4.3): five
366-day years of seconds. -/
def searchFuel : Nat := 5 * 366 * 86400

/-- Bounded linear search for the first firing instant at or after s
(spec section 4.3: advance the candidate and retry on a
non-matching candidate). -/
def searchFrom (sch : ParsedSchedule) : Nat → Nat → Option Nat
  | _, 0 => none
  | s, k + 1 =>
    if matchesAt sch s = true then some s else searchFrom sch (s + 1) k

/-- Next occurrence strictly after the reference instant, the model of
schedule.Next of the borrowed library; when the ceiling is exhausted it
returns the zero instant, as the library returns the zero time. -/
def nextExec (sch : ParsedSchedule) (t : Nat) : Nat :=
  (searchFrom sch (t + 1) searchFuel).getD 0

/-- The occurrence loop of calculateNextExecutions (src/main.go lines
705-708): repeatedly take the next occurrence, seeding each step with
the previous occurrence. -/
def calcNextList (sch : ParsedSchedule) : Nat → Nat → List Nat
  | _, 0 => []
  | t, k + 1 => nextExec sch t :: calcNextList sch (nextExec sch t) k

/-- Two-digit zero padding for timestamp rendering. -/
def pad2 (n : Nat) : String :=
  if n < 10 then "0" ++ Nat.repr n else Nat.repr n

/-- Abbreviated weekday names of the Go reference layout. -/
def wkdayShortNames : List String :=
  ["Sun", "Mon", "Tue", "Wed", "Thu", "Fri", "Sat"]

/-- Abbreviated month names of the Go reference layout (index 0 is a
padding entry). -/
def monthShortNames : List String :=
  ["", "Jan", "Feb", "Mar", "Apr", "May", "Jun", "Jul", "Aug", "Sep",
   "Oct", "Nov", "Dec"]

/-- Modelled from the spec: rendering of one occurrence in the Go
reference layout "Mon Jan 2 2006 at 15:04:05" (src/main.go line 706;
the Go time formatting itself lives in the standard library). -/
def formatExecution (s : Nat) : String :=
  let z := s / 86400
  let ymd := civilFromDays z
  wkdayShortNames.getD ((z + 4) % 7) "" ++ " " ++
  monthShortNames.getD ymd.2.1 "" ++ " " ++
  Nat.repr ymd.2.2 ++ " " ++ Nat.repr ymd.1 ++ " at " ++
  pad2 (s / 3600 % 24) ++ ":" ++ pad2 (s / 60 % 60) ++ ":" ++ pad2 (s % 60)

/-- Embedding of calculateNextExecutions (src/main.go lines 694-711)
over the outcome of the external parser: a parse failure returns the
single-element error list; success renders the next occurrences. -/
def calculateNextExecutions (pr : Except String ParsedSchedule) (t count : Nat) :
    List String :=
  match pr with
  | Except.error msg => ["Error parsing cron expression: " ++ msg]
  | Except.ok sch => (calcNextList sch t count).map formatExecution

/-- All-wildcard schedule used as a concrete occurrence-search
instance. -/
def allWildcardSchedule : ParsedSchedule :=
  ⟨CronField.wildcard, CronField.wildcard, CronField.wildcard,
   CronField.wildcard, CronField.wildcard, "* * * * *"⟩

/-- Schedule whose day-of-month and day-of-week fields are both
restricted (non-wildcard), used as a concrete OR-rule instance. -/
def bothRestrictedSchedule : ParsedSchedule :=
  ⟨CronField.wildcard, CronField.wildcard, CronField.range 1 31,
   CronField.wildcard, CronField.range 0 6, "* * 1-31 * 0-6"⟩

/-! ## Claim theorems about the description generator -/

/-- Unfolding lemma for generateDescription at an expression whose
field split is known: the function reduces to the override chain over
the five tokens. -/
theorem generateDescription_fields_eq (e mi hh d mo dw : String)
    (hf : goFields e = [mi, hh, d, mo, dw]) :
    generateDescription e =
      (if mi = "0" ∧ hh = "0" ∧ d = "*" ∧ mo = "*" ∧ dw = "*" then
        "This cron expression will run once per day at midnight."
      else if mi = "0" ∧ hh = "0" ∧ d = "*" ∧ mo = "*" ∧ dw = "0" then
        "This cron expression will run at midnight on Sundays."
      else if mi = "0" ∧ hh = "*" ∧ d = "*" ∧ mo = "*" ∧ dw = "*" then
        "This cron expression will run at the start of every hour."
      else composeDescription mi hh d mo dw) := by
  unfold generateDescription
  rw [hf]
  rfl

/-- C6: for every five-field expression not matching an override, the
description is the minute/hour composition followed by the day-of-month,
month and day-of-week clauses, each appended exactly when its field is
not the wildcard, terminated by a period. -/
theorem generateDescription_composition (e mi hh d mo dw : String)
    (hf : goFields e = [mi, hh, d, mo, dw])
    (h1 : ¬(mi = "0" ∧ hh = "0" ∧ d = "*" ∧ mo = "*" ∧ dw = "*"))
    (h2 : ¬(mi = "0" ∧ hh = "0" ∧ d = "*" ∧ mo = "*" ∧ dw = "0"))
    (h3 : ¬(mi = "0" ∧ hh = "*" ∧ d = "*" ∧ mo = "*" ∧ dw = "*")) :
    generateDescription e =
      (if mi = "*" ∧ hh = "*" then
        "This cron expression will run " ++ minuteDescOf mi ++ " " ++ hourDescOf hh
      else if mi = "*" then
        "This cron expression will run " ++ "every minute " ++ hourDescOf hh
      else if hh = "*" then
        "This cron expression will run " ++ minuteDescOf mi ++ " of every hour"
      else
        "This cron expression will run " ++ minuteDescOf mi ++ " " ++ hourDescOf hh)
      ++ (if d ≠ "*" then " " ++ domDescOf d else "")
      ++ (if mo ≠ "*" then " " ++ monthDescOf mo else "")
      ++ (if dw ≠ "*" then " " ++ dowDescOf dw else "") ++ "." := by
  rw [generateDescription_fields_eq e mi hh d mo dw hf, if_neg h1, if_neg h2, if_neg h3]
  rfl

/-- C6 witness: the composition rule evaluated at the concrete
expression "5 3 2 4 1". -/
theorem generateDescription_composition_witness :
    generateDescription "5 3 2 4 1" =
      "This cron expression will run at minute 5 at 3:00 on the 2nd of the month in January on Mondays." := by
  rw [generateDescription_composition "5 3 2 4 1" "5" "3" "2" "4" "1"
    (by decide) (by decide) (by decide) (by decide)]
  decide

/-- C7: in the generic day-of-month ordinal path the suffix is "st"
exactly for the tokens "1", "21", "31", "nd" exactly for "2", "22",
"rd" exactly for "3", "23", and "th" for every other token; every
token reaching the generic path renders with that suffix, and in
particular "11", "12", "13" render with "th". -/
theorem domDescOf_ordinal_suffix :
    (∀ d : String,
      (ordinalSuffix d = "st" ↔ (d = "1" ∨ d = "21" ∨ d = "31")) ∧
      (ordinalSuffix d = "nd" ↔ (d = "2" ∨ d = "22")) ∧
      (ordinalSuffix d = "rd" ↔ (d = "3" ∨ d = "23")) ∧
      (ordinalSuffix d = "th" ↔
        ¬(d = "1" ∨ d = "21" ∨ d = "31" ∨ d = "2" ∨ d = "22" ∨ d = "3" ∨ d = "23"))) ∧
    (∀ d : String, d ≠ "*" → d ≠ "1" → d ≠ "2" → d ≠ "3" → d ≠ "L" →
      containsChar d ',' = false → containsChar d '-' = false → containsChar d '/' = false →
      domDescOf d = "on the " ++ d ++ ordinalSuffix d ++ " of the month") ∧
    domDescOf "11" = "on the 11th of the month" ∧
    domDescOf "12" = "on the 12th of the month" ∧
    domDescOf "13" = "on the 13th of the month" := by
  refine ⟨?_, ?_, by decide, by decide, by decide⟩
  · intro d
    unfold ordinalSuffix
    split_ifs with h1 h2 h3
    · rcases h1 with h | h | h <;> subst h <;> decide
    · rcases h2 with h | h <;> subst h <;> decide
    · rcases h3 with h | h <;> subst h <;> decide
    · exact ⟨iff_of_false (by decide) h1, iff_of_false (by decide) h2,
        iff_of_false (by decide) h3, iff_of_true rfl (by tauto)⟩
  · intro d h1 h2 h3 h4 h5 hc hd hs
    unfold domDescOf
    rw [if_neg h1, if_neg h2, if_neg h3, if_neg h4, if_neg h5,
      if_neg (by simp [hc]), if_neg (by simp [hd]), if_neg (by simp [hs])]

/-- C7 witness: the generic ordinal path evaluated at the concrete
tokens "14" and "21". -/
theorem domDescOf_ordinal_suffix_witness :
    domDescOf "14" = "on the 14th of the month" ∧ ordinalSuffix "21" = "st" := by
  constructor
  · exact (domDescOf_ordinal_suffix.2.1 "14" (by decide) (by decide) (by decide)
      (by decide) (by decide) (by decide) (by decide) (by decide)).trans (by decide)
  · exact (domDescOf_ordinal_suffix.1 "21").1.mpr (Or.inr (Or.inl rfl))

/-- C1: the claim says a numeric month token n with 1 <= n <= 12 renders
as the English name of month n, a comma list resolves each numeric
member the same way with out-of-range members passed through verbatim,
and a range resolves both bounds.  The code instead indexes the month
name table with the Sscanf item count, which is 1 whenever the token
starts with a digit, so every numeric token - the in-range "3", the
members of "4,5", the out-of-range "13", and both bounds of "2-11" -
renders as "January". -/
theorem generateDescription_month_january_bug :
    monthDescOf "3" = "in January" ∧
    monthDescOf "4,5" = "in January, January" ∧
    monthDescOf "13" = "in January" ∧
    monthDescOf "2-11" = "from January to January" ∧
    generateDescription "0 12 * 3 *" =
      "This cron expression will run at the start of each hour at noon in January." := by
  decide

/-- C2: the claim says each numeric member or bound of a day-of-week
list or range in 0..7 resolves to its English weekday name with alias
7 mapped to 0.  The single-token switch cases do behave that way, but
the list and range branches index the weekday name table with the
Sscanf item count, which is 1 for every numeric member, so every such
member renders as "Monday" (and 7 never reaches the alias branch). -/
theorem generateDescription_dow_monday_bug :
    dowDescOf "2,3" = "on Monday, Monday" ∧
    dowDescOf "0,7" = "on Monday, Monday" ∧
    dowDescOf "2-4" = "from Monday to Monday" ∧
    dowDescOf "0" = "on Sundays" ∧
    dowDescOf "7" = "on Sundays" ∧
    dowDescOf "3" = "on Wednesdays" ∧
    generateDescription "0 12 * * 2,3" =
      "This cron expression will run at the start of each hour at noon on Monday, Monday." := by
  decide

/-- C5: the three whole-expression overrides return exactly the three
fixed sentences, with no per-field clause text. -/
theorem generateDescription_overrides :
    generateDescription "0 0 * * *" =
      "This cron expression will run once per day at midnight." ∧
    generateDescription "0 0 * * 0" =
      "This cron expression will run at midnight on Sundays." ∧
    generateDescription "0 * * * *" =
      "This cron expression will run at the start of every hour." := by
  decide

/-- C8: the day-of-week special phrases literal-match exact raw tokens
only: "1-5" renders "on weekdays"; "0,6", "6,0" and "6,7" render "on
weekends"; "0,7" does not render "on weekends" and instead produces
exactly the output of the generic list-resolution branch. -/
theorem dowDescOf_literal_specials :
    dowDescOf "1-5" = "on weekdays" ∧
    dowDescOf "0,6" = "on weekends" ∧
    dowDescOf "6,0" = "on weekends" ∧
    dowDescOf "6,7" = "on weekends" ∧
    dowDescOf "0,7" ≠ "on weekends" ∧
    dowDescOf "0,7" =
      "on " ++ joinComma ((goSplit "0,7" (fun c => c = ',')).map dowMemberName) := by
  decide

/-! ## Claim theorems about the validator -/

/-- Helper: every failure produced by parseField names exactly the
field position it was validating. -/
theorem parseField_error_index (idx : Nat) (tok : String) (err : ValidationError)
    (h : parseField idx tok = Except.error err) : err.fieldIndex = some idx := by
  unfold parseField at h
  cases hc : classifyField idx tok with
  | ok f => rw [hc] at h; cases h
  | error c => rw [hc] at h; cases h; rfl

/-- C9: a rejected expression yields an error object carrying one of
the five reason codes, the offending field index and the offending raw
token, and never a schedule; in particular "60 * * * *" fails with
OutOfDomain at field index 0 on token "60", and every error that names
a field index names one of the positions 0-4. -/
theorem parseSchedule_error_report :
    parseSchedule "60 * * * *" =
      Except.error ⟨ReasonCode.OutOfDomain, some 0, "60"⟩ ∧
    ∀ e : String, fieldIndexOk (parseSchedule e) = true := by
  constructor
  · rfl
  · intro e
    simp only [parseSchedule]
    repeat' split
    all_goals first
      | rfl
      | (rename_i err heq
         simp [fieldIndexOk, parseField_error_index _ _ err heq])

/-! ## Claim theorems about the occurrence calculator -/

/-- Helper: a successful bounded search returns an instant at or after
its start that fires the schedule. -/
theorem searchFrom_some (sch : ParsedSchedule) :
    ∀ k s r : Nat, searchFrom sch s k = some r →
      s ≤ r ∧ matchesAt sch r = true := by
  intro k
  induction k with
  | zero => intro s r h; simp [searchFrom] at h
  | succ k ih =>
    intro s r h
    simp only [searchFrom] at h
    by_cases hm : matchesAt sch s = true
    · rw [if_pos hm] at h
      injection h with h
      subst h
      exact ⟨Nat.le_refl s, hm⟩
    · rw [if_neg hm] at h
      obtain ⟨h1, h2⟩ := ih (s + 1) r h
      exact ⟨by omega, h2⟩

/-- Helper: when a firing instant exists inside the search window the
bounded search succeeds. -/
theorem searchFrom_isSome (sch : ParsedSchedule) :
    ∀ k s : Nat, (∃ r, s ≤ r ∧ r < s + k ∧ matchesAt sch r = true) →
      (searchFrom sch s k).isSome = true := by
  intro k
  induction k with
  | zero =>
    rintro s ⟨r, h1, h2, _⟩
    omega
  | succ k ih =>
    rintro s ⟨r, h1, h2, h3⟩
    simp only [searchFrom]
    by_cases hm : matchesAt sch s = true
    · rw [if_pos hm]; rfl
    · rw [if_neg hm]
      apply ih
      have hne : s ≠ r := by
        intro he
        subst he
        exact hm h3
      exact ⟨r, by omega, by omega, h3⟩

/-- Helper: under the window hypothesis, the next occurrence is strictly
after the reference instant and fires the schedule. -/
theorem nextExec_spec (sch : ParsedSchedule) (t : Nat)
    (h : ∃ s, t < s ∧ s ≤ t + searchFuel ∧ matchesAt sch s = true) :
    t < nextExec sch t ∧ matchesAt sch (nextExec sch t) = true := by
  obtain ⟨s, h1, h2, h3⟩ := h
  have hsome := searchFrom_isSome sch searchFuel (t + 1)
    ⟨s, by omega, by omega, h3⟩
  cases hres : searchFrom sch (t + 1) searchFuel with
  | none => rw [hres] at hsome; simp at hsome
  | some r =>
    obtain ⟨hr1, hr2⟩ := searchFrom_some sch searchFuel (t + 1) r hres
    unfold nextExec
    rw [hres]
    exact ⟨by simpa using by omega, by simpa using hr2⟩

/-- Helper: every produced occurrence is strictly after the seed and
fires the schedule. -/
theorem calcNextList_mem (sch : ParsedSchedule)
    (hs : ∀ u : Nat, ∃ s, u < s ∧ s ≤ u + searchFuel ∧ matchesAt sch s = true) :
    ∀ count t : Nat, ∀ x ∈ calcNextList sch t count,
      t < x ∧ matchesAt sch x = true := by
  intro count
  induction count with
  | zero => intro t x hx; simp [calcNextList] at hx
  | succ k ih =>
    intro t x hx
    simp only [calcNextList] at hx
    rcases List.mem_cons.mp hx with h | h
    · subst h
      exact nextExec_spec sch t (hs t)
    · obtain ⟨ha, hb⟩ := ih (nextExec sch t) x h
      have hn := (nextExec_spec sch t (hs t)).1
      exact ⟨by omega, hb⟩

/-- Helper: the occurrence loop produces exactly as many entries as
requested. -/
theorem calcNextList_length (sch : ParsedSchedule) :
    ∀ count t : Nat, (calcNextList sch t count).length = count := by
  intro count
  induction count with
  | zero => intro t; rfl
  | succ k ih => intro t; simp [calcNextList, ih]

/-- Helper: the produced occurrences are pairwise strictly
increasing. -/
theorem calcNextList_pairwise (sch : ParsedSchedule)
    (hs : ∀ u : Nat, ∃ s, u < s ∧ s ≤ u + searchFuel ∧ matchesAt sch s = true) :
    ∀ count t : Nat,
      List.Pairwise (fun a b => a < b) (calcNextList sch t count) := by
  intro count
  induction count with
  | zero => intro t; simp [calcNextList]
  | succ k ih =>
    intro t
    simp only [calcNextList]
    refine List.Pairwise.cons ?_ (ih (nextExec sch t))
    intro x hx
    exact (calcNextList_mem sch hs k (nextExec sch t) x hx).1

/-- C4: for every schedule satisfiable inside the search window, every
reference instant and every count, the occurrence calculator produces
exactly count occurrences, pairwise strictly increasing, each strictly
after the reference instant and each with seconds zero. -/
theorem calcNextList_exact_increasing (sch : ParsedSchedule) (t count : Nat)
    (hs : ∀ u : Nat, ∃ s, u < s ∧ s ≤ u + searchFuel ∧ matchesAt sch s = true) :
    (calcNextList sch t count).length = count ∧
    List.Pairwise (fun a b => a < b) (calcNextList sch t count) ∧
    ∀ x ∈ calcNextList sch t count, t < x ∧ x % 60 = 0 := by
  refine ⟨calcNextList_length sch count t, calcNextList_pairwise sch hs count t, ?_⟩
  intro x hx
  obtain ⟨h1, h2⟩ := calcNextList_mem sch hs count t x hx
  refine ⟨h1, ?_⟩
  unfold matchesAt at h2
  simp only [Bool.and_eq_true, decide_eq_true_eq] at h2
  exact h2.1.1.1.1

/-- C4 witness: the calculator evaluated on the all-wildcard schedule
from reference instant 0 with count 3. -/
theorem calcNextList_exact_increasing_witness :
    (calcNextList allWildcardSchedule 0 3).length = 3 ∧
    List.Pairwise (fun a b => a < b) (calcNextList allWildcardSchedule 0 3) ∧
    ∀ x ∈ calcNextList allWildcardSchedule 0 3, 0 < x ∧ x % 60 = 0 :=
  calcNextList_exact_increasing allWildcardSchedule 0 3 (fun u =>
    ⟨u - u % 60 + 60, by omega,
      by have hf : searchFuel = 158112000 := rfl; omega,
      by simp [allWildcardSchedule, matchesAt, dayMatches, fieldMatchesIn]; omega⟩)

/-- C3: every occurrence the calculator produces satisfies the
dual-field day rule: when both day fields are restricted the day
matches day-of-month OR day-of-week; when exactly one is restricted
only that field governs. -/
theorem calcNextList_day_or_rule (sch : ParsedSchedule) (t count : Nat)
    (hs : ∀ u : Nat, ∃ s, u < s ∧ s ≤ u + searchFuel ∧ matchesAt sch s = true)
    (x : Nat) (hx : x ∈ calcNextList sch t count) :
    (sch.dom ≠ CronField.wildcard → sch.dow ≠ CronField.wildcard →
      (fieldMatchesIn 1 sch.dom (dayOfMonthAt x) = true ∨
       fieldMatchesIn 0 sch.dow (weekdayAt x) = true)) ∧
    (sch.dom = CronField.wildcard → sch.dow ≠ CronField.wildcard →
      fieldMatchesIn 0 sch.dow (weekdayAt x) = true) ∧
    (sch.dom ≠ CronField.wildcard → sch.dow = CronField.wildcard →
      fieldMatchesIn 1 sch.dom (dayOfMonthAt x) = true) := by
  have hm := (calcNextList_mem sch hs count t x hx).2
  unfold matchesAt at hm
  simp only [Bool.and_eq_true] at hm
  have hday : dayMatches sch (dayOfMonthAt x) (weekdayAt x) = true := hm.2
  unfold dayMatches at hday
  refine ⟨?_, ?_, ?_⟩
  · intro hdom hdow
    rw [if_neg (by tauto), if_neg hdom, if_neg hdow] at hday
    exact (Bool.or_eq_true _ _).mp hday
  · intro hdom hdow
    rw [if_neg (by tauto), if_pos hdom] at hday
    exact hday
  · intro hdom hdow
    rw [if_neg (by tauto), if_neg hdom, if_pos hdow] at hday
    exact hday

/-- C3 witness: the OR-rule evaluated on a schedule with both day
fields restricted, at the first produced occurrence. -/
theorem calcNextList_day_or_rule_witness :
    fieldMatchesIn 1 bothRestrictedSchedule.dom
      (dayOfMonthAt (nextExec bothRestrictedSchedule 0)) = true ∨
    fieldMatchesIn 0 bothRestrictedSchedule.dow
      (weekdayAt (nextExec bothRestrictedSchedule 0)) = true := by
  have h := calcNextList_day_or_rule bothRestrictedSchedule 0 1
    (fun u => ⟨u - u % 60 + 60, by omega,
      by have hf : searchFuel = 158112000 := rfl; omega,
      by
        simp [bothRestrictedSchedule, matchesAt, dayMatches, fieldMatchesIn,
          weekdayAt]
        refine ⟨by omega, Or.inr ?_⟩
        omega⟩)
    (nextExec bothRestrictedSchedule 0) (by simp [calcNextList])
  exact h.1 (by decide) (by decide)

/-- C10: the occurrence calculation is total over the parse outcome: a
parse failure yields exactly the one-element list whose entry is the
parse error message behind the fixed text, never an empty or partial
result; and the description generator returns exactly the fixed
invalid-expression text whenever the input does not split into five
fields. -/
theorem calculateNextExecutions_total :
    (∀ (msg : String) (t count : Nat),
      calculateNextExecutions (Except.error msg) t count =
        ["Error parsing cron expression: " ++ msg]) ∧
    (∀ e : String, (goFields e).length ≠ 5 →
      generateDescription e = "Invalid cron expression") := by
  constructor
  · intro msg t count
    rfl
  · intro e h
    simp [generateDescription, h]

/-- C10 witness: the two totality clauses at the concrete parse error
"boom" and the three-field expression. -/
theorem calculateNextExecutions_total_witness :
    calculateNextExecutions (Except.error "boom") 0 5 =
      ["Error parsing cron expression: boom"] ∧
    generateDescription "* * *" = "Invalid cron expression" :=
  ⟨calculateNextExecutions_total.1 "boom" 0 5,
   calculateNextExecutions_total.2 "* * *" (by decide)⟩
